import Mathlib

/-!
Shallow embedding of the wfs-client repository: the version negotiation
algorithm of the Client class, its query construction, its constructor,
and the capabilities schema tables of lib/versions/1.0.0.js, together with
theorems settling the specification claims about them.
-/

namespace Wfs

/-! ### Semantic versions

The repository delegates version parsing and ordering to the external
semver package (spec: SemverComparator, an external primitive). The wire
contract for version identifiers is MAJOR.MINOR.PATCH (spec section 6),
so the model covers core numeric semver: three dot-separated numeric
identifiers without leading zeroes. -/

/-- Numeric conversion of a digit list (most significant first). -/
def natOfDigits (l : List Char) : Nat :=
  l.foldl (fun acc c => acc * 10 + (c.toNat - 48)) 0

/-- Split a character list on the dot character. -/
def splitOnDot : List Char → List (List Char)
  | [] => [[]]
  | c :: rest =>
    if c = '.' then [] :: splitOnDot rest
    else
      match splitOnDot rest with
      | [] => [[c]]
      | g :: gs => (c :: g) :: gs

/-- Semver numeric identifier: nonempty, digits only, no leading zero. -/
def isNumericIdentL (l : List Char) : Bool :=
  !l.isEmpty && l.all (fun c => c.isDigit) &&
    (l.length = 1 || l.headD ' ' ≠ '0')

/-- Parse a MAJOR.MINOR.PATCH version string into its numeric triple;
models semver.valid / semver parsing for core numeric versions. -/
def parseSemver (s : String) : Option (Nat × Nat × Nat) :=
  match splitOnDot s.toList with
  | [a, b, c] =>
    if isNumericIdentL a && isNumericIdentL b && isNumericIdentL c then
      some (natOfDigits a, natOfDigits b, natOfDigits c)
    else none
  | _ => none

/-- Lexicographic strict order on version triples. -/
def ltP (a b : Nat × Nat × Nat) : Prop :=
  a.1 < b.1 ∨ (a.1 = b.1 ∧ (a.2.1 < b.2.1 ∨ (a.2.1 = b.2.1 ∧ a.2.2 < b.2.2)))

instance (a b : Nat × Nat × Nat) : Decidable (ltP a b) := by
  unfold ltP; infer_instance

/-- Models semver.valid viewed as a boolean test. -/
def semverValid (s : String) : Bool :=
  (parseSemver s).isSome

/-- Models semver.lt on version strings (false when either side is not a
parsed version; the call sites that could throw in javascript are handled
explicitly in the negotiation model). -/
def semverLt (a b : String) : Bool :=
  match parseSemver a, parseSemver b with
  | some x, some y => decide (ltP x y)
  | _, _ => false

/-- Models semver.gt on version strings. -/
def semverGt (a b : String) : Bool :=
  semverLt b a

/-- Models lodash findLast: the last element of the list satisfying the
predicate. -/
def findLast (l : List α) (p : α → Bool) : Option α :=
  l.reverse.find? p

/-- Models supportedVersionsKeys = Object.keys(supportedVersions), in
insertion order, which is ascending semver order. -/
def supportedVersionsKeys : List String :=
  ["1.0.0", "1.1.0", "2.0.0"]

/-! ### Version negotiation (Client._negociateVersion)

The negotiator only inspects, for each response, the root element name
and the version attribute of the root node, so a server is modelled as a
function from the request index to that observable data. The javascript
recursion carries a candidate version that is a string or undefined
(Option String); a fuel argument makes the Lean function total, and the
entry point supplies fuel supportedVersionsKeys.length + 1, shown
sufficient by the termination theorem below. -/

/-- Observable part of one GetCapabilities response: root element name and
the version attribute of the root node (none when absent). -/
structure Response where
  rootName : String
  versionAttr : Option String
deriving DecidableEq

/-- Outcome of _negociateVersion: a resolved version, or one of the thrown
errors. errTypeError models the TypeError raised inside semver.gt or
semver.lt when the candidate passed to a comparison is undefined (or not a
version); outOfFuel is a model artifact shown unreachable from the entry
point. -/
inductive NegoResult where
  | ok (version : String)
  | errUnreadable
  | errNoOverlap (detected candidate : String)
  | errRecovery
  | errTypeError
  | outOfFuel
deriving DecidableEq

/-- One shallow step per request: mirrors the body of _negociateVersion.
Returns the outcome together with the total number of requests issued
(n is the number issued before this call). -/
def negotiateAux (server : Nat → Response) : Nat → Nat → Option String → NegoResult × Nat
  | 0, n, _ => (.outOfFuel, n)
  | fuel + 1, n, cand =>
    if (server n).rootName = "WFS_Capabilities" then
      match (server n).versionAttr with
      | none => (.errUnreadable, n + 1)
      | some d =>
        if semverValid d = true then
          if cand = some d then (.ok d, n + 1)
          else
            match cand with
            | none => (.errTypeError, n + 1)
            | some c =>
              if semverValid c = true then
                if semverGt d c = true then (.errNoOverlap d c, n + 1)
                else if supportedVersionsKeys.contains d = true then (.ok d, n + 1)
                else negotiateAux server fuel (n + 1)
                  (findLast supportedVersionsKeys fun k => semverLt k d)
              else (.errTypeError, n + 1)
        else (.errUnreadable, n + 1)
    else
      match cand with
      | none => (.errTypeError, n + 1)
      | some c =>
        if semverValid c = true then
          match findLast supportedVersionsKeys fun k => semverLt k c with
          | some next => negotiateAux server fuel (n + 1) (some next)
          | none => (.errRecovery, n + 1)
        else (.errTypeError, n + 1)

/-- Entry point: _ensureVersion starts negotiation at the last element of
supportedVersionsKeys. The fuel is a model artifact; the termination
theorem shows it is never exhausted. -/
def negociateVersion (server : Nat → Response) : NegoResult × Nat :=
  negotiateAux server (supportedVersionsKeys.length + 1) 0
    (some (supportedVersionsKeys.getD (supportedVersionsKeys.length - 1) ""))

/-- Server for the missing-guard scenario: always answers a capabilities
root carrying version 0.9.0. -/
def echoServer09 : Nat → Response :=
  fun _ => ⟨"WFS_Capabilities", some "0.9.0"⟩

/-- Server driving negotiation through both recovery steps and then the
unguarded fallback branch: two unrecognized documents, then capabilities
reporting 0.9.0. -/
def stubbornServer : Nat → Response :=
  fun n => if n < 2 then ⟨"ServiceExceptionReport", none⟩
           else ⟨"WFS_Capabilities", some "0.9.0"⟩

/-- Server that never returns a recognizable capabilities root. -/
def exceptionServer : Nat → Response :=
  fun _ => ⟨"ServiceExceptionReport", none⟩

/-- Server answering the first probe with version 1.0.5 (valid, below the
candidate, unsupported) and later probes with version 1.0.0. -/
def fallbackServer : Nat → Response :=
  fun n => if n = 0 then ⟨"WFS_Capabilities", some "1.0.5"⟩
           else ⟨"WFS_Capabilities", some "1.0.0"⟩

/-- Candidate rank used for the termination measure: position from below in
the fallback chain undefined, 1.0.0, 1.1.0, 2.0.0. -/
def rank : Option String → Nat
  | none => 1
  | some c => if c = "1.0.0" then 2 else if c = "1.1.0" then 3
              else if c = "2.0.0" then 4 else 1

/-! ### Query construction (Client._request)

_request builds options.query as the javascript object spread
`\x7bservice: 'WFS', ...this.queryStringToAppend, ...query\x7d` where query is
`\x7brequest, version\x7d` at both call sites (negotiation probe and final
capabilities fetch). Later spreads win on key collision, so the merged
object is modelled as a lookup function. Caller extras are an association
list with distinct keys, read through List.lookup. -/

/-- Merged query parameters of _request as a key lookup. -/
def mergedQuery (extras : List (String × String)) (req ver : String)
    (k : String) : Option String :=
  if k = "request" then some req
  else if k = "version" then some ver
  else
    match extras.lookup k with
    | some v => some v
    | none => if k = "service" then some "WFS" else none

/-! ### Client constructor -/

/-- Models the Client constructor restricted to its observable version
handling: requires a truthy url, and when options.version is truthy it must
be a key of supportedVersions or the constructor throws; the result is the
version field of the built client (none when negotiation is still
pending). An empty string models a falsy supplied version. -/
def clientConstruct (url : String) (oversion : Option String) : Except String (Option String) :=
  if url = "" then .error "URL is required!"
  else
    match oversion with
    | some v =>
      if v = "" then .ok none
      else if supportedVersionsKeys.contains v = true then .ok (some v)
      else .error "Version not supported by client"
    | none => .ok none

/-! ### Capabilities schema tables and the document mapper

The schema tables below are translated from lib/versions/1.0.0.js. The
generic mapper (xml.mapper / buildObject) lives in lib/xml.js, which is not
among the sources; it is modelled from the spec. -/

/-- XML element: name, text content, children. Only what the mapper
consumes is modelled; selectors are child-path selectors relative to the
context node, matching the shape of the selectors in the tables
(./wfs:A/wfs:B). -/
inductive XmlNode where
  | elem (name : String) (text : String) (children : List XmlNode)

/-- Name of an element. -/
def xmlName : XmlNode → String
  | .elem nm _ _ => nm

/-- Text content of an element. -/
def xmlText : XmlNode → String
  | .elem _ t _ => t

/-- Children of an element. -/
def xmlChildren : XmlNode → List XmlNode
  | .elem _ _ cs => cs

/-- One declarative mapping rule (spec: FieldMapping): selector path,
destination key, multiplicity flag, optional nested schema name. -/
structure FieldMapping where
  selector : List String
  dest : String
  multi : Bool
  sub : Option String

/-- types.Main of lib/versions/1.0.0.js. -/
def typesMain : List FieldMapping :=
  [⟨["wfs:Service"], "service", false, some "Service"⟩,
   ⟨["wfs:FeatureTypeList", "wfs:FeatureType"], "featureTypes", true, some "FeatureType"⟩]

/-- types.Service of lib/versions/1.0.0.js. -/
def typesService : List FieldMapping :=
  [⟨["wfs:Name"], "name", false, none⟩,
   ⟨["wfs:Title"], "title", false, none⟩,
   ⟨["wfs:Abstract"], "abstract", false, none⟩,
   ⟨["wfs:Keywords"], "keywords", false, none⟩,
   ⟨["wfs:OnlineResource"], "location", false, none⟩,
   ⟨["wfs:Fees"], "fees", false, none⟩,
   ⟨["wfs:AccessConstraints"], "accessConstraints", false, none⟩]

/-- types.FeatureType of lib/versions/1.0.0.js. -/
def typesFeatureType : List FieldMapping :=
  [⟨["wfs:Name"], "name", false, none⟩,
   ⟨["wfs:Title"], "title", false, none⟩,
   ⟨["wfs:Abstract"], "abstract", false, none⟩,
   ⟨["wfs:Keywords"], "keywords", false, none⟩]

/-- Schema lookup for the 1.0.0 bundle. -/
def schemaOf (name : String) : List FieldMapping :=
  if name = "Main" then typesMain
  else if name = "Service" then typesService
  else if name = "FeatureType" then typesFeatureType
  else []

/-- Values produced by the mapper: raw text, ordered list, nested object. -/
inductive Value where
  | str (s : String)
  | list (vs : List Value)
  | obj (fields : List (String × Value))

/-- Evaluate a child-path selector against a context node, yielding the
matched node set in document order. -/
def selectNodes (ctx : XmlNode) (path : List String) : List XmlNode :=
  path.foldl (fun acc nm => acc.flatMap (fun nd => (xmlChildren nd).filter (fun c => xmlName c = nm))) [ctx]

/-- Modelled from the spec: the generic DocumentMapper buildObject of
lib/xml.js, which is not among the sources. Spec section 4.2: one key per
FieldMapping; a single mapping takes the first match, giving its text
content (or a recursively mapped object when a nested schema is named) and
is omitted when there is no match; a multi mapping always yields an
ordered list, one entry per match, the empty list for zero matches, never
an absent key. Fuel bounds the nesting depth. -/
def buildObject : Nat → XmlNode → String → List (String × Value)
  | 0, _, _ => []
  | fuel + 1, ctx, schemaName =>
    (schemaOf schemaName).foldr
      (fun m acc =>
        let hits := selectNodes ctx m.selector
        if m.multi then
          (m.dest, Value.list (hits.map fun nd =>
            match m.sub with
            | none => Value.str (xmlText nd)
            | some s => Value.obj (buildObject fuel nd s))) :: acc
        else
          match hits with
          | [] => acc
          | nd :: _ =>
            (m.dest,
              match m.sub with
              | none => Value.str (xmlText nd)
              | some s => Value.obj (buildObject fuel nd s)) :: acc)
      []

mutual
/-- Executable size of an XML tree, used as mapper fuel. -/
def xmlSize : XmlNode → Nat
  | .elem _ _ cs => 1 + xmlSizeList cs
/-- Executable size of a forest of XML trees. -/
def xmlSizeList : List XmlNode → Nat
  | [] => 0
  | n :: ns => xmlSize n + xmlSizeList ns
end

/-- parseCapabilities of lib/versions/1.0.0.js: map the document with the
Main schema. The fuel xmlSize doc dominates the nesting depth of the
document. -/
def parseCapabilities (doc : XmlNode) : List (String × Value) :=
  buildObject (xmlSize doc) doc "Main"

/-- Client.featureTypes: `capabilities.featureTypes || []`; an absent (or
non-list) value falls back to the empty list. -/
def featureTypesOp (doc : XmlNode) : List Value :=
  match (parseCapabilities doc).lookup "featureTypes" with
  | some (Value.list vs) => vs
  | _ => []

/-! ### Helper lemmas about the semver model -/

theorem parseSemver_v100 : parseSemver "1.0.0" = some (1, 0, 0) := by decide

theorem parseSemver_v110 : parseSemver "1.1.0" = some (1, 1, 0) := by decide

theorem parseSemver_v200 : parseSemver "2.0.0" = some (2, 0, 0) := by decide

theorem semverValid_iff {s : String} :
    semverValid s = true ↔ ∃ x, parseSemver s = some x := by
  simp [semverValid, Option.isSome_iff_exists]

theorem semverLt_eq_decide {a b : String} {x y : Nat × Nat × Nat}
    (ha : parseSemver a = some x) (hb : parseSemver b = some y) :
    semverLt a b = decide (ltP x y) := by
  simp [semverLt, ha, hb]

theorem semverLt_valid {a b : String} (h : semverLt a b = true) :
    semverValid a = true ∧ semverValid b = true := by
  unfold semverLt at h
  cases ha : parseSemver a <;> cases hb : parseSemver b <;>
    simp [ha, hb] at h ⊢ <;> simp [semverValid, ha, hb]

theorem semverLt_irrefl (a : String) : semverLt a a = false := by
  unfold semverLt
  cases ha : parseSemver a
  · rfl
  · simp only [decide_eq_false_iff_not]
    unfold ltP; omega

theorem semverLt_ne {a b : String} (h : semverLt a b = true) : a ≠ b := by
  intro he; subst he; rw [semverLt_irrefl] at h; cases h

theorem semverLt_asymm {a b : String} (h : semverLt a b = true) :
    semverLt b a = false := by
  unfold semverLt at h ⊢
  cases ha : parseSemver a <;> cases hb : parseSemver b <;>
    simp [ha, hb] at h ⊢
  unfold ltP at h ⊢; omega

theorem findLast_largest (p : String → Bool) (x : String)
    (h : findLast supportedVersionsKeys p = some x) :
    x ∈ supportedVersionsKeys ∧ p x = true ∧
      ∀ k ∈ supportedVersionsKeys, p k = true → k = x ∨ semverLt k x = true := by
  cases h1 : p "1.0.0" <;> cases h2 : p "1.1.0" <;> cases h3 : p "2.0.0" <;>
    simp [findLast, supportedVersionsKeys, List.find?, h1, h2, h3] at h <;>
    subst h <;>
    simp [supportedVersionsKeys, h1, h2, h3] <;> decide

/-! ### Claim C4: supported smaller detected version accepted immediately -/

/-- Claim C4: whenever the probe answers with the capabilities root and a
detected version strictly smaller than the candidate that is a member of
SupportedVersionSet, negotiation returns that detected version at once,
with no request beyond the single probe. -/
theorem negotiate_accepts_supported_detected
    (server : Nat → Response) (fuel n : Nat) (c d : String)
    (hresp : server n = ⟨"WFS_Capabilities", some d⟩)
    (hlt : semverLt d c = true)
    (hmem : supportedVersionsKeys.contains d = true) :
    negotiateAux server (fuel + 1) n (some c) = (.ok d, n + 1) := by
  have hvd : semverValid d = true := (semverLt_valid hlt).1
  have hvc : semverValid c = true := (semverLt_valid hlt).2
  have hne : ¬(some c = some d) := by
    intro h
    exact semverLt_ne hlt (Option.some.inj h).symm
  have hgt : semverGt d c = false := semverLt_asymm hlt
  have hmem2 : d ∈ supportedVersionsKeys := by simpa using hmem
  simp [negotiateAux, hresp, hvd, hvc, hne, hgt, hmem2]

/-- Claim C4 witness: candidate 2.0.0, detected 1.1.0, immediate success
after one request. -/
theorem negotiate_accepts_supported_detected_witness :
    negotiateAux (fun _ => ⟨"WFS_Capabilities", some "1.1.0"⟩) 4 0 (some "2.0.0") =
      (.ok "1.1.0", 1) :=
  negotiate_accepts_supported_detected
    (fun _ => ⟨"WFS_Capabilities", some "1.1.0"⟩) 3 0 "2.0.0" "1.1.0"
    rfl (by decide) (by decide)

/-! ### Claim C5: detected greater than candidate fails with no overlap -/

/-- Claim C5: whenever the probe answers with the capabilities root and a
detected version strictly greater than the candidate, negotiation fails
carrying both versions (the NoOverlap failure) after exactly that one
request. -/
theorem negotiate_no_overlap
    (server : Nat → Response) (fuel n : Nat) (c d : String)
    (hresp : server n = ⟨"WFS_Capabilities", some d⟩)
    (hgt : semverGt d c = true) :
    negotiateAux server (fuel + 1) n (some c) = (.errNoOverlap d c, n + 1) := by
  have hvd : semverValid d = true := (semverLt_valid hgt).2
  have hvc : semverValid c = true := (semverLt_valid hgt).1
  have hne : ¬(some c = some d) := by
    intro h
    exact semverLt_ne hgt (Option.some.inj h)
  simp [negotiateAux, hresp, hvd, hvc, hne, hgt]

/-- Claim C5 witness: candidate 2.0.0, detected 3.0.0, NoOverlap failure
carrying both versions after one request. -/
theorem negotiate_no_overlap_witness :
    negotiateAux (fun _ => ⟨"WFS_Capabilities", some "3.0.0"⟩) 4 0 (some "2.0.0") =
      (.errNoOverlap "3.0.0" "2.0.0", 1) :=
  negotiate_no_overlap (fun _ => ⟨"WFS_Capabilities", some "3.0.0"⟩) 3 0
    "2.0.0" "3.0.0" rfl (by decide)

/-! ### Claim C7: unreadable version attribute -/

/-- Claim C7: whenever the probe answers with the capabilities root but the
version attribute is absent or not a syntactically valid version string,
negotiation fails with the UnreadableVersion failure after exactly that one
request, for every current candidate. -/
theorem negotiate_unreadable_version
    (server : Nat → Response) (fuel n : Nat) (cand : Option String)
    (va : Option String)
    (hresp : server n = ⟨"WFS_Capabilities", va⟩)
    (hbad : va = none ∨ ∃ s, va = some s ∧ semverValid s = false) :
    negotiateAux server (fuel + 1) n cand = (.errUnreadable, n + 1) := by
  rcases hbad with rfl | ⟨s, rfl, hs⟩
  · simp [negotiateAux, hresp]
  · simp [negotiateAux, hresp, hs]

/-- Claim C7 witness: version attribute 1.0 (not a full semver string)
yields the UnreadableVersion failure after one request. -/
theorem negotiate_unreadable_version_witness :
    negotiateAux (fun _ => ⟨"WFS_Capabilities", some "1.0"⟩) 4 0 (some "2.0.0") =
      (.errUnreadable, 1) :=
  negotiate_unreadable_version (fun _ => ⟨"WFS_Capabilities", some "1.0"⟩) 3 0
    (some "2.0.0") (some "1.0") rfl (Or.inr ⟨"1.0", rfl, by decide⟩)

/-! ### Concrete evaluation lemmas reused across the negotiation proofs -/

theorem semverValid_v100 : semverValid "1.0.0" = true := by decide

theorem semverValid_v110 : semverValid "1.1.0" = true := by decide

theorem semverValid_v200 : semverValid "2.0.0" = true := by decide

theorem findLast_below_v100 :
    findLast supportedVersionsKeys (fun k => semverLt k "1.0.0") = none := by decide

theorem findLast_below_v110 :
    findLast supportedVersionsKeys (fun k => semverLt k "1.1.0") = some "1.0.0" := by decide

theorem findLast_below_v200 :
    findLast supportedVersionsKeys (fun k => semverLt k "2.0.0") = some "1.1.0" := by decide

/-! ### Claim C3: fallback candidate is chosen below the detected version -/

/-- Claim C3: when the detected version is strictly smaller than the
candidate and unsupported, the recursive probe uses exactly the findLast
fallback computed against the detected version, and whenever that fallback
exists it is the largest member of SupportedVersionSet strictly smaller
than the detected version; with detected 1.0.5 the fallback is 1.0.0. -/
theorem negotiate_fallback_below_detected
    (server : Nat → Response) (fuel n : Nat) (c d : String)
    (hresp : server n = ⟨"WFS_Capabilities", some d⟩)
    (hlt : semverLt d c = true)
    (hmem : supportedVersionsKeys.contains d = false) :
    negotiateAux server (fuel + 1) n (some c) =
      negotiateAux server fuel (n + 1) (findLast supportedVersionsKeys fun k => semverLt k d)
    ∧ (∀ x, findLast supportedVersionsKeys (fun k => semverLt k d) = some x →
        x ∈ supportedVersionsKeys ∧ semverLt x d = true ∧
          ∀ k ∈ supportedVersionsKeys, semverLt k d = true → k = x ∨ semverLt k x = true)
    ∧ findLast supportedVersionsKeys (fun k => semverLt k "1.0.5") = some "1.0.0" := by
  have hvd : semverValid d = true := (semverLt_valid hlt).1
  have hvc : semverValid c = true := (semverLt_valid hlt).2
  have hne : ¬(some c = some d) := by
    intro h
    exact semverLt_ne hlt (Option.some.inj h).symm
  have hgt : semverGt d c = false := semverLt_asymm hlt
  have hmem2 : d ∉ supportedVersionsKeys := by simpa using hmem
  refine ⟨?_, ?_, by decide⟩
  · simp [negotiateAux, hresp, hvd, hvc, hne, hgt, hmem2]
  · intro x hx
    exact findLast_largest _ x hx

/-- Claim C3 witness: candidate 2.0.0, detected 1.0.5 makes the second
request use candidate 1.0.0, and the run succeeds with 1.0.0 after two
requests in total. -/
theorem negotiate_fallback_below_detected_witness :
    negotiateAux fallbackServer 4 0 (some "2.0.0") =
      negotiateAux fallbackServer 3 1 (some "1.0.0")
    ∧ negotiateAux fallbackServer 4 0 (some "2.0.0") = (.ok "1.0.0", 2) := by
  have h := negotiate_fallback_below_detected fallbackServer 3 0 "2.0.0" "1.0.5"
    rfl (by decide) (by decide)
  have hfl : findLast supportedVersionsKeys (fun k => semverLt k "1.0.5") = some "1.0.0" :=
    h.2.2
  refine ⟨?_, by decide⟩
  rw [h.1, hfl]

/-! ### Claim C6: recovery mode steps down and exhausts -/

/-- Claim C6: when the response root is not the capabilities root, the
negotiator recurses with the largest member of SupportedVersionSet
strictly smaller than the current candidate when one exists, fails with
the RecoveryExhausted failure when none exists, and against a server that
never produces a recognizable root the entry run fails that way after
exactly three requests. -/
theorem negotiate_recovery_mode
    (server : Nat → Response) (fuel n : Nat) (c : String)
    (hvc : semverValid c = true)
    (hroot : ¬((server n).rootName = "WFS_Capabilities")) :
    (∀ next, findLast supportedVersionsKeys (fun k => semverLt k c) = some next →
        negotiateAux server (fuel + 1) n (some c) = negotiateAux server fuel (n + 1) (some next)
        ∧ next ∈ supportedVersionsKeys ∧ semverLt next c = true
        ∧ ∀ k ∈ supportedVersionsKeys, semverLt k c = true → k = next ∨ semverLt k next = true)
    ∧ (findLast supportedVersionsKeys (fun k => semverLt k c) = none →
        negotiateAux server (fuel + 1) n (some c) = (.errRecovery, n + 1))
    ∧ negociateVersion exceptionServer = (.errRecovery, 3) := by
  refine ⟨?_, ?_, by decide⟩
  · intro next hfl
    have hl := findLast_largest _ next hfl
    exact ⟨by simp [negotiateAux, hroot, hvc, hfl], hl.1, hl.2.1, hl.2.2⟩
  · intro hfl
    simp [negotiateAux, hroot, hvc, hfl]

/-- Claim C6 witness: the first unrecognized response to candidate 2.0.0
makes the second request use candidate 1.1.0, and the unrecognizable
server fails with the recovery error after three requests. -/
theorem negotiate_recovery_mode_witness :
    negotiateAux exceptionServer 4 0 (some "2.0.0") =
      negotiateAux exceptionServer 3 1 (some "1.1.0")
    ∧ negociateVersion exceptionServer = (.errRecovery, 3) := by
  have h := negotiate_recovery_mode exceptionServer 3 0 "2.0.0" (by decide) (by decide)
  exact ⟨(h.1 "1.1.0" (by decide)).1, h.2.2⟩

/-! ### Claim C1: the missing NoSmallerCandidate guard -/

/-- Claim C1 is contradicted by the code: in a state where the detected
version 0.9.0 is valid, strictly below the candidate 1.0.0, unsupported,
and no supported version lies below it, _negociateVersion does not stop
with a NoSmallerCandidate failure; it recurses with an undefined candidate,
issues one further request (two in total from this state), and then dies
with the TypeError raised inside the semver comparison. -/
theorem negotiate_missing_no_smaller_guard :
    semverLt "0.9.0" "1.0.0" = true
    ∧ supportedVersionsKeys.contains "0.9.0" = false
    ∧ supportedVersionsKeys.all (fun k => !semverLt k "0.9.0") = true
    ∧ negotiateAux echoServer09 4 0 (some "1.0.0") = (.errTypeError, 2) := by
  decide

/-! ### Termination and round-trip bound -/

/-- Fuel of rank cand suffices from any candidate reachable in negotiation
(undefined or a member of SupportedVersionSet), and the run from such a
candidate issues at most rank cand further requests. -/
theorem nego_bound (server : Nat → Response) :
    ∀ fuel cand n,
      (cand = none ∨ cand = some "1.0.0" ∨ cand = some "1.1.0" ∨ cand = some "2.0.0") →
      rank cand ≤ fuel →
      (negotiateAux server fuel n cand).1 ≠ .outOfFuel ∧
        (negotiateAux server fuel n cand).2 ≤ n + rank cand := by
  intro fuel
  induction fuel with
  | zero =>
    intro cand n hg hr
    exfalso
    rcases hg with rfl | rfl | rfl | rfl <;> simp [rank] at hr
  | succ fuel ih =>
    intro cand n hg hr
    have hrank1 : 1 ≤ rank cand := by
      rcases hg with rfl | rfl | rfl | rfl <;> simp [rank]
    by_cases hroot : (server n).rootName = "WFS_Capabilities"
    · cases hva : (server n).versionAttr with
      | none =>
        simp only [negotiateAux, hroot, if_true, hva]
        exact ⟨by simp, by simp <;> omega⟩
      | some d =>
        by_cases hvd : semverValid d = true
        · by_cases hdc : cand = some d
          · subst hdc
            simp only [negotiateAux, hroot, if_true, hva, hvd]
            exact ⟨by simp, by simp <;> omega⟩
          · obtain ⟨pd, hpd⟩ := semverValid_iff.mp hvd
            obtain ⟨p1, p2, p3⟩ := pd
            rcases hg with rfl | rfl | rfl | rfl
            · simp only [negotiateAux, hroot, if_true, hva, hvd]
              exact ⟨by simp, by simp [rank] <;> omega⟩
            · by_cases hgt : semverGt d "1.0.0" = true
              · simp only [negotiateAux, hroot, if_true, hva, hvd, hdc, semverValid_v100, hgt]
                exact ⟨by simp, by simp [rank] <;> omega⟩
              · by_cases hmem : "1.0.0" = d ∨ "1.1.0" = d ∨ "2.0.0" = d
                · have hmem2 : supportedVersionsKeys.contains d = true := by
                    rcases hmem with rfl | rfl | rfl <;> decide
                  simp only [negotiateAux, hroot, if_true, hva, hvd, hdc, semverValid_v100,
                    hgt, hmem2]
                  exact ⟨by simp, by simp [rank] <;> omega⟩
                · have hmem2 : supportedVersionsKeys.contains d = false := by
                    simp [supportedVersionsKeys, List.contains]
                    push_neg at hmem
                    exact ⟨fun h => hmem.1 h.symm, fun h => hmem.2.1 h.symm,
                      fun h => hmem.2.2 h.symm⟩
                  have hnp : ¬ ltP (1, 0, 0) (p1, p2, p3) := by
                    have := semverLt_eq_decide parseSemver_v100 hpd
                    unfold semverGt at hgt
                    rw [this] at hgt
                    simpa using hgt
                  have e1 : semverLt "1.0.0" d = false := by
                    rw [semverLt_eq_decide parseSemver_v100 hpd]
                    simpa using hnp
                  have e2 : semverLt "1.1.0" d = false := by
                    rw [semverLt_eq_decide parseSemver_v110 hpd]
                    simp only [decide_eq_false_iff_not]
                    unfold ltP at hnp ⊢; simp at hnp ⊢; omega
                  have e3 : semverLt "2.0.0" d = false := by
                    rw [semverLt_eq_decide parseSemver_v200 hpd]
                    simp only [decide_eq_false_iff_not]
                    unfold ltP at hnp ⊢; simp at hnp ⊢; omega
                  have hfl : (findLast supportedVersionsKeys fun k => semverLt k d) = none := by
                    simp [findLast, supportedVersionsKeys, List.find?, e1, e2, e3]
                  have step : negotiateAux server (fuel + 1) n (some "1.0.0") =
                      negotiateAux server fuel (n + 1) none := by
                    simp only [negotiateAux, hroot, if_true, hva, hvd, hdc, semverValid_v100,
                      hgt, hmem2, hfl]
                    simp [hfl]
                  have h2 := ih none (n + 1) (Or.inl rfl) (by simp [rank] at hr ⊢; omega)
                  rw [step]
                  refine ⟨h2.1, ?_⟩
                  have := h2.2
                  simp [rank] at this ⊢
                  omega
            · by_cases hgt : semverGt d "1.1.0" = true
              · simp only [negotiateAux, hroot, if_true, hva, hvd, hdc, semverValid_v110, hgt]
                exact ⟨by simp, by simp [rank] <;> omega⟩
              · by_cases hmem : "1.0.0" = d ∨ "1.1.0" = d ∨ "2.0.0" = d
                · have hmem2 : supportedVersionsKeys.contains d = true := by
                    rcases hmem with rfl | rfl | rfl <;> decide
                  simp only [negotiateAux, hroot, if_true, hva, hvd, hdc, semverValid_v110,
                    hgt, hmem2]
                  exact ⟨by simp, by simp [rank] <;> omega⟩
                · have hmem2 : supportedVersionsKeys.contains d = false := by
                    simp [supportedVersionsKeys, List.contains]
                    push_neg at hmem
                    exact ⟨fun h => hmem.1 h.symm, fun h => hmem.2.1 h.symm,
                      fun h => hmem.2.2 h.symm⟩
                  have hnp : ¬ ltP (1, 1, 0) (p1, p2, p3) := by
                    have := semverLt_eq_decide parseSemver_v110 hpd
                    unfold semverGt at hgt
                    rw [this] at hgt
                    simpa using hgt
                  have e2 : semverLt "1.1.0" d = false := by
                    rw [semverLt_eq_decide parseSemver_v110 hpd]
                    simpa using hnp
                  have e3 : semverLt "2.0.0" d = false := by
                    rw [semverLt_eq_decide parseSemver_v200 hpd]
                    simp only [decide_eq_false_iff_not]
                    unfold ltP at hnp ⊢; simp at hnp ⊢; omega
                  by_cases hp1 : ltP (1, 0, 0) (p1, p2, p3)
                  · have e1 : semverLt "1.0.0" d = true := by
                      rw [semverLt_eq_decide parseSemver_v100 hpd]
                      simpa using hp1
                    have hfl : (findLast supportedVersionsKeys fun k => semverLt k d) =
                        some "1.0.0" := by
                      simp [findLast, supportedVersionsKeys, List.find?, e1, e2, e3]
                    have step : negotiateAux server (fuel + 1) n (some "1.1.0") =
                        negotiateAux server fuel (n + 1) (some "1.0.0") := by
                      simp only [negotiateAux, hroot, if_true, hva, hvd, hdc, semverValid_v110,
                        hgt, hmem2, hfl]
                      simp [hfl]
                    have h2 := ih (some "1.0.0") (n + 1) (by simp)
                      (by simp [rank] at hr ⊢; omega)
                    rw [step]
                    refine ⟨h2.1, ?_⟩
                    have := h2.2
                    simp [rank] at this ⊢
                    omega
                  · have e1 : semverLt "1.0.0" d = false := by
                      rw [semverLt_eq_decide parseSemver_v100 hpd]
                      simpa using hp1
                    have hfl : (findLast supportedVersionsKeys fun k => semverLt k d) = none := by
                      simp [findLast, supportedVersionsKeys, List.find?, e1, e2, e3]
                    have step : negotiateAux server (fuel + 1) n (some "1.1.0") =
                        negotiateAux server fuel (n + 1) none := by
                      simp only [negotiateAux, hroot, if_true, hva, hvd, hdc, semverValid_v110,
                        hgt, hmem2, hfl]
                      simp [hfl]
                    have h2 := ih none (n + 1) (Or.inl rfl)
                      (by simp [rank] at hr ⊢; omega)
                    rw [step]
                    refine ⟨h2.1, ?_⟩
                    have := h2.2
                    simp [rank] at this ⊢
                    omega
            · by_cases hgt : semverGt d "2.0.0" = true
              · simp only [negotiateAux, hroot, if_true, hva, hvd, hdc, semverValid_v200, hgt]
                exact ⟨by simp, by simp [rank] <;> omega⟩
              · by_cases hmem : "1.0.0" = d ∨ "1.1.0" = d ∨ "2.0.0" = d
                · have hmem2 : supportedVersionsKeys.contains d = true := by
                    rcases hmem with rfl | rfl | rfl <;> decide
                  simp only [negotiateAux, hroot, if_true, hva, hvd, hdc, semverValid_v200,
                    hgt, hmem2]
                  exact ⟨by simp, by simp [rank] <;> omega⟩
                · have hmem2 : supportedVersionsKeys.contains d = false := by
                    simp [supportedVersionsKeys, List.contains]
                    push_neg at hmem
                    exact ⟨fun h => hmem.1 h.symm, fun h => hmem.2.1 h.symm,
                      fun h => hmem.2.2 h.symm⟩
                  have hnp : ¬ ltP (2, 0, 0) (p1, p2, p3) := by
                    have := semverLt_eq_decide parseSemver_v200 hpd
                    unfold semverGt at hgt
                    rw [this] at hgt
                    simpa using hgt
                  have e3 : semverLt "2.0.0" d = false := by
                    rw [semverLt_eq_decide parseSemver_v200 hpd]
                    simpa using hnp
                  by_cases hp2 : ltP (1, 1, 0) (p1, p2, p3)
                  · have e2 : semverLt "1.1.0" d = true := by
                      rw [semverLt_eq_decide parseSemver_v110 hpd]
                      simpa using hp2
                    have hfl : (findLast supportedVersionsKeys fun k => semverLt k d) =
                        some "1.1.0" := by
                      simp [findLast, supportedVersionsKeys, List.find?, e2, e3]
                    have step : negotiateAux server (fuel + 1) n (some "2.0.0") =
                        negotiateAux server fuel (n + 1) (some "1.1.0") := by
                      simp only [negotiateAux, hroot, if_true, hva, hvd, hdc, semverValid_v200,
                        hgt, hmem2, hfl]
                      simp [hfl]
                    have h2 := ih (some "1.1.0") (n + 1) (by simp)
                      (by simp [rank] at hr ⊢; omega)
                    rw [step]
                    refine ⟨h2.1, ?_⟩
                    have := h2.2
                    simp [rank] at this ⊢
                    omega
                  · have e2 : semverLt "1.1.0" d = false := by
                      rw [semverLt_eq_decide parseSemver_v110 hpd]
                      simpa using hp2
                    by_cases hp1 : ltP (1, 0, 0) (p1, p2, p3)
                    · have e1 : semverLt "1.0.0" d = true := by
                        rw [semverLt_eq_decide parseSemver_v100 hpd]
                        simpa using hp1
                      have hfl : (findLast supportedVersionsKeys fun k => semverLt k d) =
                          some "1.0.0" := by
                        simp [findLast, supportedVersionsKeys, List.find?, e1, e2, e3]
                      have step : negotiateAux server (fuel + 1) n (some "2.0.0") =
                          negotiateAux server fuel (n + 1) (some "1.0.0") := by
                        simp only [negotiateAux, hroot, if_true, hva, hvd, hdc, semverValid_v200,
                          hgt, hmem2, hfl]
                        simp [hfl]
                      have h2 := ih (some "1.0.0") (n + 1) (by simp)
                        (by simp [rank] at hr ⊢; omega)
                      rw [step]
                      refine ⟨h2.1, ?_⟩
                      have := h2.2
                      simp [rank] at this ⊢
                      omega
                    · have e1 : semverLt "1.0.0" d = false := by
                        rw [semverLt_eq_decide parseSemver_v100 hpd]
                        simpa using hp1
                      have hfl : (findLast supportedVersionsKeys fun k => semverLt k d) =
                          none := by
                        simp [findLast, supportedVersionsKeys, List.find?, e1, e2, e3]
                      have step : negotiateAux server (fuel + 1) n (some "2.0.0") =
                          negotiateAux server fuel (n + 1) none := by
                        simp only [negotiateAux, hroot, if_true, hva, hvd, hdc, semverValid_v200,
                          hgt, hmem2, hfl]
                        simp [hfl]
                      have h2 := ih none (n + 1) (Or.inl rfl)
                        (by simp [rank] at hr ⊢; omega)
                      rw [step]
                      refine ⟨h2.1, ?_⟩
                      have := h2.2
                      simp [rank] at this ⊢
                      omega
        · simp only [negotiateAux, hroot, if_true, hva]
          rw [if_neg (by simpa using hvd)]
          exact ⟨by simp, by simp <;> omega⟩
    · rcases hg with rfl | rfl | rfl | rfl
      · simp only [negotiateAux, hroot, if_false]
        exact ⟨by simp, by simp [rank] <;> omega⟩
      · simp only [negotiateAux, hroot, if_false, semverValid_v100, findLast_below_v100]
        exact ⟨by simp, by simp [rank] <;> omega⟩
      · have step : negotiateAux server (fuel + 1) n (some "1.1.0") =
            negotiateAux server fuel (n + 1) (some "1.0.0") := by
          simp only [negotiateAux, hroot, if_false, semverValid_v110, findLast_below_v110]
          simp
        have h2 := ih (some "1.0.0") (n + 1) (by simp) (by simp [rank] at hr ⊢; omega)
        rw [step]
        refine ⟨h2.1, ?_⟩
        have := h2.2
        simp [rank] at this ⊢
        omega
      · have step : negotiateAux server (fuel + 1) n (some "2.0.0") =
            negotiateAux server fuel (n + 1) (some "1.1.0") := by
          simp only [negotiateAux, hroot, if_false, semverValid_v200, findLast_below_v200]
          simp
        have h2 := ih (some "1.1.0") (n + 1) (by simp) (by simp [rank] at hr ⊢; omega)
        rw [step]
        refine ⟨h2.1, ?_⟩
        have := h2.2
        simp [rank] at this ⊢
        omega

/-! ### Claim C2: termination and number of round trips -/

/-- Claim C2 counterexample: starting from the supported candidate 2.0.0,
a server answering two unrecognizable documents and then capabilities with
version 0.9.0 drives the negotiator through four requests, exceeding the
claimed bound of three (the size of SupportedVersionSet). -/
theorem negotiation_round_trip_bound_cex :
    "2.0.0" ∈ supportedVersionsKeys
    ∧ (negociateVersion stubbornServer).2 = 4
    ∧ (negociateVersion stubbornServer).2 > supportedVersionsKeys.length := by
  decide

/-- Claim C2 amended: from every starting candidate in SupportedVersionSet
and against every sequence of server responses, negotiation terminates
(the model fuel is never exhausted) and issues at most
SupportedVersionSet size + 1 requests; the extra request comes from the
recursion with an undefined candidate in the unguarded fallback branch. -/
theorem negotiation_terminates_bounded
    (server : Nat → Response) (start : String)
    (hstart : start ∈ supportedVersionsKeys) :
    (negotiateAux server (supportedVersionsKeys.length + 1) 0 (some start)).1 ≠ .outOfFuel
    ∧ (negotiateAux server (supportedVersionsKeys.length + 1) 0 (some start)).2 ≤
        supportedVersionsKeys.length + 1 := by
  have hstart2 : start = "1.0.0" ∨ start = "1.1.0" ∨ start = "2.0.0" := by
    simpa [supportedVersionsKeys] using hstart
  have hg : some start = none ∨ some start = some "1.0.0" ∨
      some start = some "1.1.0" ∨ some start = some "2.0.0" := by
    rcases hstart2 with rfl | rfl | rfl <;> simp
  have hlen : supportedVersionsKeys.length = 3 := by decide
  have hrk : rank (some start) ≤ supportedVersionsKeys.length + 1 := by
    rcases hstart2 with rfl | rfl | rfl <;> simp [rank, hlen]
  have h := nego_bound server (supportedVersionsKeys.length + 1) (some start) 0 hg hrk
  exact ⟨h.1, by have := h.2; omega⟩

/-- Claim C2 witness: the bound instantiated at the worst-case server and
the entry candidate 2.0.0. -/
theorem negotiation_terminates_bounded_witness :
    (negotiateAux stubbornServer (supportedVersionsKeys.length + 1) 0 (some "2.0.0")).1 ≠
      .outOfFuel
    ∧ (negotiateAux stubbornServer (supportedVersionsKeys.length + 1) 0 (some "2.0.0")).2 ≤
        supportedVersionsKeys.length + 1 :=
  negotiation_terminates_bounded stubbornServer "2.0.0" (by decide)

/-! ### Claim C8: query parameter construction -/

/-- Claim C8 counterexample: a caller-supplied extra query parameter named
service overrides the fixed protocol identifier, so the merged query does
not include service=WFS for every caller-supplied extras object. -/
theorem request_query_service_override_cex :
    mergedQuery [("service", "WMS")] "GetCapabilities" "2.0.0" "service" = some "WMS"
    ∧ ¬(mergedQuery [("service", "WMS")] "GetCapabilities" "2.0.0" "service" = some "WFS") := by
  decide

/-- Claim C8 amended: every request query carries the request operation
name and the target version (these override same-named extras); it carries
the fixed protocol identifier service=WFS whenever the caller-supplied
extras do not themselves bind the key service; and it carries every
caller-supplied extra whose key is neither request nor version. -/
theorem request_query_contents
    (extras : List (String × String)) (req ver : String) :
    mergedQuery extras req ver "request" = some req
    ∧ mergedQuery extras req ver "version" = some ver
    ∧ (extras.lookup "service" = none → mergedQuery extras req ver "service" = some "WFS")
    ∧ ∀ k v, ¬(k = "request") → ¬(k = "version") → extras.lookup k = some v →
        mergedQuery extras req ver k = some v := by
  refine ⟨by simp [mergedQuery], by simp [mergedQuery], ?_, ?_⟩
  · intro h
    simp [mergedQuery, h]
  · intro k v hk1 hk2 h
    simp [mergedQuery, hk1, hk2, h]

/-- Claim C8 witness: with one unrelated extra, the query carries the
operation name, the protocol identifier and the extra. -/
theorem request_query_contents_witness :
    mergedQuery [("foo", "bar")] "GetCapabilities" "1.1.0" "request" = some "GetCapabilities"
    ∧ mergedQuery [("foo", "bar")] "GetCapabilities" "1.1.0" "version" = some "1.1.0"
    ∧ mergedQuery [("foo", "bar")] "GetCapabilities" "1.1.0" "service" = some "WFS"
    ∧ mergedQuery [("foo", "bar")] "GetCapabilities" "1.1.0" "foo" = some "bar" := by
  have h := request_query_contents [("foo", "bar")] "GetCapabilities" "1.1.0"
  exact ⟨h.1, h.2.1, h.2.2.1 (by decide),
    h.2.2.2 "foo" "bar" (by decide) (by decide) (by decide)⟩

/-! ### Claim C9: featureTypes is always a list -/

/-- Claim C9: for every capabilities document with zero FeatureType
elements, the mapped object still carries the featureTypes key, bound to
the empty list (never an absent key), and the featureTypes client
operation returns the empty list. The generic mapper is modelled from the
spec since lib/xml.js is not among the sources. -/
theorem featureTypes_always_list
    (doc : XmlNode)
    (hzero : selectNodes doc ["wfs:FeatureTypeList", "wfs:FeatureType"] = []) :
    (parseCapabilities doc).lookup "featureTypes" = some (Value.list [])
    ∧ featureTypesOp doc = [] := by
  obtain ⟨k, hk⟩ : ∃ k, xmlSize doc = k + 1 := by
    cases doc with
    | elem nm t cs => exact ⟨xmlSizeList cs, by simp [xmlSize, Nat.add_comm]⟩
  have hmain : parseCapabilities doc = buildObject (k + 1) doc "Main" := by
    rw [parseCapabilities, hk]
  have hlook : (parseCapabilities doc).lookup "featureTypes" = some (Value.list []) := by
    rw [hmain]
    cases hs : selectNodes doc ["wfs:Service"] <;>
      simp [buildObject, schemaOf, typesMain, hs, hzero, List.lookup]
  exact ⟨hlook, by simp [featureTypesOp, hlook]⟩

/-- Claim C9 witness: a capabilities document with no children at all maps
to an explicit empty featureTypes list. -/
theorem featureTypes_always_list_witness :
    (parseCapabilities (XmlNode.elem "WFS_Capabilities" "" [])).lookup "featureTypes" =
      some (Value.list [])
    ∧ featureTypesOp (XmlNode.elem "WFS_Capabilities" "" []) = [] :=
  featureTypes_always_list (XmlNode.elem "WFS_Capabilities" "" []) rfl

/-! ### Claim C10: pinned versions are checked against the supported set -/

/-- Claim C10 counterexample: the empty string is an explicitly supplied
version option that is not a member of SupportedVersionSet, yet the
constructor does not throw: the truthiness guard skips the support check
and leaves the version field unset. -/
theorem pinned_version_empty_cex :
    supportedVersionsKeys.contains "" = false
    ∧ clientConstruct "http://example.com" (some "") = .ok none := by
  exact ⟨by decide, rfl⟩

/-- Claim C10 amended: for every truthy (non-empty) pinned version that is
not a member of SupportedVersionSet the constructor throws Version not
supported by client; an empty pinned version is treated as absent; and
whenever construction succeeds with a set version field, that version
belongs to SupportedVersionSet. -/
theorem pinned_version_support :
    (∀ u v, ¬(u = "") → ¬(v = "") → supportedVersionsKeys.contains v = false →
        clientConstruct u (some v) = .error "Version not supported by client")
    ∧ ∀ u ov w, clientConstruct u ov = .ok (some w) →
        supportedVersionsKeys.contains w = true := by
  constructor
  · intro u v hu hv hsup
    have hsup2 : v ∉ supportedVersionsKeys := by simpa using hsup
    simp [clientConstruct, hu, hv, hsup2]
  · intro u ov w h
    by_cases hu : u = ""
    · simp [clientConstruct, hu] at h
    · cases ov with
      | none => simp [clientConstruct, hu] at h
      | some v =>
        by_cases hv : v = ""
        · simp [clientConstruct, hu, hv] at h
        · by_cases hs : supportedVersionsKeys.contains v = true
          · have hmem : v ∈ supportedVersionsKeys := by simpa using hs
            have hvw : v = w := by simpa [clientConstruct, hu, hv, hmem] using h
            exact hvw ▸ hs
          · have hs2 : supportedVersionsKeys.contains v = false := by
              simpa using hs
            have hs3 : v ∉ supportedVersionsKeys := by simpa using hs2
            simp [clientConstruct, hu, hv, hs3] at h

/-- Claim C10 witness: pinning 3.0.0 throws, and a successful pin of 1.1.0
yields a version inside SupportedVersionSet. -/
theorem pinned_version_support_witness :
    clientConstruct "http://example.com" (some "3.0.0") =
      .error "Version not supported by client"
    ∧ supportedVersionsKeys.contains "1.1.0" = true := by
  have h := pinned_version_support
  exact ⟨h.1 "http://example.com" "3.0.0" (by decide) (by decide) (by decide),
    h.2 "http://example.com" (some "1.1.0") "1.1.0" rfl⟩

end Wfs
